import Mathlib

/-!
Shallow embedding of `decouple.py` (python-decouple) and proofs about it.

Modelling conventions:
* Python strings are Lean `String`; dynamic Python values that flow through
  `Config.get` (option values, defaults) are modelled by the closed type `PVal`
  covering the shapes relevant here (strings, booleans, integers, `None`).
* `os.environ` is modelled as an association list `PEnv` that is passed
  explicitly to every operation that runs with access to the ambient process
  environment.
* The `undefined` sentinel used for unsupplied `default=`/`cast=` arguments is
  modelled by `Option`/a dedicated constructor: `default : Option PVal` is
  `none` exactly when the caller omitted the argument, and `PyCast.unset`
  models an omitted `cast` argument.
* Exceptions become `Except PyErr`; `PyErr` carries the payload of each Python
  exception raised by the code under study.
* `str.lower` is modelled by `String.toLower` (the values the code compares
  against are ASCII), and `str.strip(chars)` by dropping characters of the
  given set from both ends.
-/

/-- `string.whitespace` from CPython: the characters stripped by the
`.strip()` calls in `RepositoryEnv.__init__` and by `Csv`'s default
`strip` argument (` \t\n\r\x0b\x0c`). -/
def pyWhitespace : List Char := [' ', '\t', '\n', '\r', Char.ofNat 11, Char.ofNat 12]

/-- The quote characters of `v.strip('\'"')` in `RepositoryEnv.__init__`. -/
def quoteChars : List Char := ['\'', '"']

/-- Python `s.strip(chars)`: remove all leading and trailing characters that
belong to `chars` (left strip then right strip on the remainder, which is what
CPython's two-ended scan computes). -/
def pyStrip (s : String) (chars : List Char) : String :=
  ⟨List.rdropWhile (fun c => chars.contains c) (s.data.dropWhile (fun c => chars.contains c))⟩

/-- Python `s.lower()` (ASCII case mapping suffices for the tokens compared
by this code), written as a structural map over the characters. -/
def pyLower (s : String) : String := ⟨s.data.map Char.toLower⟩

/-- The Python values that flow through `Config.get` in this development. -/
inductive PVal where
  | str (s : String)
  | bool (b : Bool)
  | int (n : Int)
  | none
deriving DecidableEq

/-- Python `str(value)` on the values of `PVal`. -/
def pyStr : PVal → String
  | .str s => s
  | .bool b => if b then "True" else "False"
  | .int n => toString n
  | .none => "None"

/-- The exceptions raised by the code under study, with their payloads.
`undefinedValueError` carries the formatted message; `invalidTruthValue`
carries the (lowercased) token of `distutils.util.strtobool`'s
`ValueError("invalid truth value %r")`; `noOptionError`/`keyError` model the
lookup errors of `ConfigParser.get` and `dict.__getitem__`;
the last two are the `ValueError`s raised by `shlex`. -/
inductive PyErr where
  | undefinedValueError (msg : String)
  | invalidTruthValue (val : String)
  | noOptionError (sec opt : String)
  | keyError (key : String)
  | noClosingQuotation
  | noEscapedCharacter
  | invalidInterpolationSyntax (val : String)
  | interpolationSyntaxError
  | interpolationMissingOption (var : String)
  | interpolationDepthError
deriving DecidableEq

deriving instance DecidableEq for Except

/-- The message of the `UndefinedValueError` raised by `Config.get` and
`WritableConfig.get`:
`'{} not found. Declare it as envvar or define a default value.'.format(option)`. -/
def notFoundMsg (option : String) : String :=
  option ++ " not found. Declare it as envvar or define a default value."

/-- `os.environ`, passed explicitly: an association list from variable names
to string values. -/
abbrev PEnv := List (String × String)

/-- Lookup in an association list (first binding wins, as in a dict whose
keys are unique). -/
def lookupA {α : Type} (l : List (String × α)) (k : String) : Option α :=
  (l.find? (fun e => e.1 == k)).map (fun e => e.2)

/-- `option in os.environ` / `os.environ[option]` combined: the environment
value of `k`, if present. -/
def envFind (env : PEnv) (k : String) : Option String := lookupA env k

/-- `k in os.environ`. -/
def envContains (env : PEnv) (k : String) : Bool := (envFind env k).isSome

/-- The accepted true tokens of `distutils.util.strtobool`. -/
def trueTokens : List String := ["y", "yes", "t", "true", "on", "1"]

/-- The accepted false tokens of `distutils.util.strtobool`. -/
def falseTokens : List String := ["n", "no", "f", "false", "off", "0"]

/-- `distutils.util.strtobool`: lowercase the value, return `1` for a true
token, `0` for a false token, and raise `ValueError("invalid truth value %r")`
otherwise. -/
def strtobool (s : String) : Except PyErr Nat :=
  let v := pyLower s
  if v ∈ trueTokens then .ok 1
  else if v ∈ falseTokens then .ok 0
  else .error (.invalidTruthValue v)

/-- `Config._cast_boolean`:
`value = str(value); return bool(value) if value == '' else bool(strtobool(value))`. -/
def castBoolean (value : PVal) : Except PyErr Bool :=
  let s := pyStr value
  if s = "" then .ok false
  else (strtobool s).map (fun n => n != 0)

/-- The `cast=` argument of `Config.get`: omitted (the `undefined` sentinel),
exactly the `bool` type, or some other callable. -/
inductive PyCast where
  | unset
  | boolMarker
  | fn (f : PVal → Except PyErr PVal)

/-- The cast dispatch at the end of `Config.get`: an omitted cast becomes
`_cast_do_nothing` (identity), `cast is bool` becomes `_cast_boolean`, and any
other callable is applied as-is. -/
def applyCast : PyCast → PVal → Except PyErr PVal
  | .unset, v => .ok v
  | .boolMarker, v => (castBoolean v).map PVal.bool
  | .fn f, v => f v

/-- A repository as `Config.get` sees it: `__contains__` and `__getitem__`.
Both receive the ambient process environment because some repositories
(`RepositoryIni`, `RepositoryEnv`) consult `os.environ` in `__contains__`.
`getv` returns `Except` because `__getitem__` may raise. -/
structure RepoE where
  mem : PEnv → String → Bool
  getv : PEnv → String → Except PyErr PVal

/-- `Config.get(option, default=undefined, cast=undefined)`: environment
first, then the repository, then the default (raising `UndefinedValueError`
when the default was omitted), and finally the cast step. -/
def configGet (env : PEnv) (repo : RepoE) (option : String)
    (default : Option PVal) (cast : PyCast) : Except PyErr PVal :=
  let valueE : Except PyErr PVal :=
    match envFind env option with
    | some s => .ok (.str s)
    | Option.none =>
      if repo.mem env option then repo.getv env option
      else
        match default with
        | Option.none => .error (.undefinedValueError (notFoundMsg option))
        | some d => .ok d
  match valueE with
  | .ok v => applyCast cast v
  | .error e => .error e

/-- `Config.__call__`: a shorthand that forwards all arguments to `get`. -/
def configCall (env : PEnv) (repo : RepoE) (option : String)
    (default : Option PVal) (cast : PyCast) : Except PyErr PVal :=
  configGet env repo option default cast

/-- `RepositoryEmpty`: contains nothing; `__getitem__` returns `None`. -/
def repositoryEmpty : RepoE :=
  { mem := fun _ _ => false
    getv := fun _ _ => .ok .none }

/-!
## The `ConfigParser` state

`configparser.ConfigParser` is stdlib; we model the part this code uses: an
ordered dict of sections, each an ordered dict of options.  Keys are stored
and looked up through `optionxform` (lowercasing).  `ConfigParser` (unlike
`RawConfigParser`) runs `BasicInterpolation`: `set` validates the value with
`before_set` (raising `ValueError` on a stray `%`) and `get` transforms it
with `before_get` (`%%` → `%`, `%(name)s` resolved against the section,
other `%` sequences raising); both are modelled below.  The `DEFAULT`
section is not modelled (the interpolation map is the option's own section).
Association lists model the dicts: `setKV` replaces the (unique) existing
binding or appends, `delKV` removes the key, mirroring dict assignment and
deletion.
-/

/-- Dict update `d[k] = v` on an association list. -/
def setKV {α : Type} : List (String × α) → String → α → List (String × α)
  | [], k, v => [(k, v)]
  | (k', v') :: t, k, v =>
    if k' == k then (k, v) :: t else (k', v') :: setKV t k v

/-- Dict deletion `del d[k]` on an association list (the key is absent from
the result, as after deleting from a dict). -/
def delKV {α : Type} (l : List (String × α)) (k : String) : List (String × α) :=
  l.filter (fun e => !(e.1 == k))

/-- The parsed state of a `ConfigParser`: sections mapping to their options. -/
abbrev IniParser := List (String × List (String × String))

/-- `parser.sections()` membership: does section `s` exist? -/
def hasSection (p : IniParser) (s : String) : Bool :=
  p.any (fun e => e.1 == s)

/-- Raw option membership in section `s` (key already `optionxform`ed). -/
def iniHasOption : IniParser → String → String → Bool
  | [], _, _ => false
  | (s', opts) :: t, s, k =>
    if s' == s then opts.any (fun e => e.1 == k) else iniHasOption t s k

/-- Raw option read in section `s` (key already `optionxform`ed). -/
def iniGet : IniParser → String → String → Option String
  | [], _, _ => Option.none
  | (s', opts) :: t, s, k =>
    if s' == s then lookupA opts k else iniGet t s k

/-- Raw option write in section `s` (key already `optionxform`ed); only ever
used where the section exists (`ConfigParser.set` raises otherwise). -/
def iniSet : IniParser → String → String → String → IniParser
  | [], _, _, _ => []
  | (s', opts) :: t, s, k, v =>
    if s' == s then (s', setKV opts k v) :: t else (s', opts) :: iniSet t s k v

/-- Raw option removal in section `s` (key already `optionxform`ed). -/
def iniDelOpt : IniParser → String → String → IniParser
  | [], _, _ => []
  | (s', opts) :: t, s, k =>
    if s' == s then (s', delKV opts k) :: t else (s', opts) :: iniDelOpt t s k

/-- The option dict of section `s` (first matching section), used as the
interpolation map of `before_get` (keys already `optionxform`ed). -/
def iniSectOpts : IniParser → String → List (String × String)
  | [], _ => []
  | (s', opts) :: t, s => if s' == s then opts else iniSectOpts t s

/-- The left-to-right scan of Python `value.replace('%%', '')`: the flag
records a pending `%` that may pair with the next character (a kept `%`
never pairs with what follows, matching `str.replace`'s non-overlapping
scan from the position after a miss). -/
def replaceDoublePctAux : Bool → List Char → List Char
  | false, [] => []
  | false, c :: rest =>
    if c = '%' then replaceDoublePctAux true rest
    else c :: replaceDoublePctAux false rest
  | true, [] => ['%']
  | true, c :: rest =>
    if c = '%' then replaceDoublePctAux false rest
    else '%' :: c :: replaceDoublePctAux false rest

/-- Python `value.replace('%%', '')`: remove non-overlapping `%%` pairs,
scanning left to right (the first step of `BasicInterpolation.before_set`). -/
def replaceDoublePct (l : List Char) : List Char := replaceDoublePctAux false l

/-- `_KEYCRE.sub('', tmp)` with `_KEYCRE = %\(([^)]+)\)s`: remove every
non-overlapping match, scanning left to right and moving one character on a
failed match, as `re.sub` does.  A match at `%(` consumes up to the first
`)` (the `[^)]+` group cannot cross one), which must be followed by `s` and
enclose at least one character.  The `Nat` fuel only makes the recursion
structural: every step consumes at least one character, so the initial fuel
`l.length` never runs out and the fuel-0 branch is unreachable. -/
def keycreSubFuel : Nat → List Char → List Char
  | 0, l => l
  | _ + 1, [] => []
  | fuel + 1, c :: rest =>
    if c = '%' then
      match rest with
      | '(' :: rest' =>
        match rest'.dropWhile (fun x => x ≠ ')') with
        | ')' :: 's' :: tail =>
          if rest'.takeWhile (fun x => x ≠ ')') = [] then
            c :: keycreSubFuel fuel rest
          else keycreSubFuel fuel tail
        | _ => c :: keycreSubFuel fuel rest
      | _ => c :: keycreSubFuel fuel rest
    else c :: keycreSubFuel fuel rest

/-- `re.sub` of `_KEYCRE` with the empty replacement. -/
def keycreSub (l : List Char) : List Char := keycreSubFuel l.length l

/-- `BasicInterpolation.before_set`: strip escaped `%%` pairs and valid
`%(name)s` references; any `%` that survives raises
`ValueError('invalid interpolation syntax ...')`, else the value is stored
verbatim. -/
def beforeSet (value : String) : Except PyErr String :=
  let tmp := replaceDoublePct value.data
  let tmp2 := keycreSub tmp
  if tmp2.contains '%' then .error (.invalidInterpolationSyntax value)
  else .ok value

/-- The scanning states of `BasicInterpolation._interpolate_some`: plain
text, just after `%`, inside the name of a `%(name)s` reference, and just
after that name's closing `)`. -/
inductive InterpSt where
  | scan
  | pct
  | ref (inner : List Char)
  | refClose (inner : List Char)
deriving DecidableEq

/-- The `while rest` loop of `_interpolate_some`, one character at a time
(equivalent to the source's `rest.find('%')` slicing): text is copied,
`%%` emits `%`, `%(name)s` looks `optionxform(name)` up in the section map
`opts` — recursing through `recurse` when the resolved value itself contains
`%` — and any other `%` use raises `InterpolationSyntaxError`; an input
ending inside a reference fails the `_KEYCRE` match and raises likewise. -/
def interpScan (opts : List (String × String))
    (recurse : List Char → Except PyErr (List Char)) :
    InterpSt → List Char → List Char → Except PyErr (List Char)
  | .scan, accum, [] => .ok accum
  | .pct, _, [] => .error .interpolationSyntaxError
  | .ref _, _, [] => .error .interpolationSyntaxError
  | .refClose _, _, [] => .error .interpolationSyntaxError
  | .scan, accum, c :: rest =>
    if c = '%' then interpScan opts recurse .pct accum rest
    else interpScan opts recurse .scan (accum ++ [c]) rest
  | .pct, accum, c :: rest =>
    if c = '%' then interpScan opts recurse .scan (accum ++ ['%']) rest
    else if c = '(' then interpScan opts recurse (.ref []) accum rest
    else .error .interpolationSyntaxError
  | .ref inner, accum, c :: rest =>
    if c = ')' then interpScan opts recurse (.refClose inner) accum rest
    else interpScan opts recurse (.ref (inner ++ [c])) accum rest
  | .refClose inner, accum, c :: rest =>
    if c = 's' then
      if inner = [] then .error .interpolationSyntaxError
      else
        match lookupA opts (pyLower ⟨inner⟩) with
        | Option.none => .error (.interpolationMissingOption (pyLower ⟨inner⟩))
        | some v =>
          if v.data.contains '%' then
            match recurse v.data with
            | .error e => .error e
            | .ok chars => interpScan opts recurse .scan (accum ++ chars) rest
          else interpScan opts recurse .scan (accum ++ v.data) rest
    else .error .interpolationSyntaxError

/-- `_interpolate_some` at depth `11 - fuel`: the source raises
`InterpolationDepthError` once the depth exceeds `MAX_INTERPOLATION_DEPTH`
(10), i.e. when the fuel is exhausted. -/
def interpolateSome (opts : List (String × String)) :
    Nat → List Char → Except PyErr (List Char)
  | 0, _ => .error .interpolationDepthError
  | dFuel + 1, value =>
    interpScan opts (fun v => interpolateSome opts dFuel v) .scan [] value

/-- `BasicInterpolation.before_get`: interpolate the raw value against the
section map, starting at depth 1 (fuel 10). -/
def beforeGet (opts : List (String × String)) (value : String) :
    Except PyErr String :=
  match interpolateSome opts 10 value.data with
  | .ok l => .ok ⟨l⟩
  | .error e => .error e

/-- `parser.has_option(s, k)`: applies `optionxform` (lowercasing) to `k`;
no interpolation is involved. -/
def parserHasOption (p : IniParser) (s k : String) : Bool :=
  iniHasOption p s (pyLower k)

/-- `parser.get(s, k)` on a `ConfigParser`: applies `optionxform` to `k`,
raises `NoOptionError` when the key is absent, and otherwise runs the raw
stored value through `before_get` against the section map. -/
def parserGetOpt (p : IniParser) (s k : String) : Except PyErr String :=
  match iniGet p s (pyLower k) with
  | Option.none => .error (.noOptionError s k)
  | some value => beforeGet (iniSectOpts p s) value

/-- `parser.set(s, k, v)` on a `ConfigParser`: a non-empty value is first
validated by `before_set` (`if value: value = before_set(...)`), then the
value is stored under the `optionxform`ed key. -/
def parserSet (p : IniParser) (s k v : String) : Except PyErr IniParser :=
  match (if v ≠ "" then beforeSet v else .ok v) with
  | .error e => .error e
  | .ok v' => .ok (iniSet p s (pyLower k) v')

/-- `parser.remove_option(s, k)`: applies `optionxform` to `k`. -/
def parserRemoveOption (p : IniParser) (s k : String) : IniParser :=
  iniDelOpt p s (pyLower k)

/-- `RepositoryIni.SECTION`, the fixed class attribute. -/
def repositoryIniSection : String := "settings"

/-- `RepositoryIni` as a repository, given the parsed contents of its file:
`__contains__` is `key in os.environ or parser.has_option(SECTION, key)`,
`__getitem__` is `parser.get(SECTION, key)`. -/
def repositoryIni (p : IniParser) : RepoE :=
  { mem := fun env k => envContains env k || parserHasOption p repositoryIniSection k
    getv := fun _ k =>
      match parserGetOpt p repositoryIniSection k with
      | .ok s => .ok (.str s)
      | .error e => .error e }

/-!
## `WritableRepositoryIni` and `WritableConfig`
-/

/-- The state of a `WritableRepositoryIni`: its (instance) `SECTION` and its
parser contents.  The `source` path, encoding and the `_save` persistence are
filesystem effects with no bearing on the key/value semantics and are not
modelled. -/
structure WRepoIni where
  SECTION : String
  parser : IniParser
deriving DecidableEq

/-- `WritableRepositoryIni.__init__(source, section='default',
create_section=True, ...)`: `parser₀` stands for the contents read from
`source` (an empty file, hence `[]`, when the file did not exist and was
touched).  When `create_section` is set and the section is missing it is
appended. -/
def wInit (parser₀ : IniParser) (sec : String := "default")
    (create_section : Bool := true) : WRepoIni :=
  let p := parser₀
  let p := if create_section && !hasSection p sec then p ++ [(sec, [])] else p
  ⟨sec, p⟩

/-- `WritableConfig.__init__` called with repository-constructor arguments:
it builds `WritableRepositoryIni(*args, **kwargs)`. -/
def writableConfigInitRepo (parser₀ : IniParser) (sec : String := "default")
    (create_section : Bool := true) : WRepoIni :=
  wInit parser₀ sec create_section

/-- `WritableRepositoryIni.__contains__`: `parser.has_option(SECTION, key)` —
no environment consultation. -/
def wContains (r : WRepoIni) (k : String) : Bool :=
  parserHasOption r.parser r.SECTION k

/-- `WritableRepositoryIni.__setitem__`: `parser.set(SECTION, key, str(value))`
(then `_save`, not modelled).  Fallible: `set` raises `ValueError` when
`before_set` rejects the string-coerced value. -/
def wSetItem (r : WRepoIni) (k : String) (v : PVal) : Except PyErr WRepoIni :=
  match parserSet r.parser r.SECTION k (pyStr v) with
  | .ok p' => .ok ⟨r.SECTION, p'⟩
  | .error e => .error e

/-- `WritableRepositoryIni.__delitem__`: `parser.remove_option(SECTION, key)`
(then `_save`, not modelled). -/
def wDelItem (r : WRepoIni) (k : String) : WRepoIni :=
  ⟨r.SECTION, parserRemoveOption r.parser r.SECTION k⟩

/-- `WritableConfig.get(option, default=undefined, cast=undefined)`: like
`Config.get` but the body never reads `os.environ`.  The `env` parameter
models the ambient process environment the method runs with (and does not
use). -/
def writableGet (_env : PEnv) (r : WRepoIni) (option : String)
    (default : Option PVal) (cast : PyCast) : Except PyErr PVal :=
  let valueE : Except PyErr PVal :=
    if wContains r option then
      match parserGetOpt r.parser r.SECTION option with
      | .ok s => .ok (.str s)
      | .error e => .error e
    else
      match default with
      | Option.none => .error (.undefinedValueError (notFoundMsg option))
      | some d => .ok d
  match valueE with
  | .ok v => applyCast cast v
  | .error e => .error e

/-!
## `RepositoryEnv`: parsing of `.env` files
-/

/-- The quote-stripping step of `RepositoryEnv.__init__`:
`if len(v) >= 2 and ((v[0] == "'" and v[-1] == "'") or (v[0] == '"' and v[-1] == '"')): v = v.strip('\'"')`. -/
def envUnquote (v : String) : String :=
  if 2 ≤ v.length ∧
      ((v.data.head? = some '\'' ∧ v.data.getLast? = some '\'') ∨
       (v.data.head? = some '"' ∧ v.data.getLast? = some '"')) then
    pyStrip v quoteChars
  else v

/-- Python `s.startswith(pre)`, as a structural prefix test on the character
lists. -/
def pyStartsWith (s pre : String) : Bool := pre.data.isPrefixOf s.data

/-- Python `c in s` for a single character `c`. -/
def pyContainsChar (s : String) (c : Char) : Bool := s.data.contains c

/-- `line.split('=', 1)` when `'=' in line`: the parts before and after the
first `=`. -/
def pySplitOnceEq (s : String) : String × String :=
  (⟨s.data.takeWhile (fun c => c ≠ '=')⟩,
   ⟨(s.data.dropWhile (fun c => c ≠ '=')).drop 1⟩)

/-- One iteration of the `RepositoryEnv.__init__` loop: strip the line, skip
blanks, comments and lines without `=`, else split on the first `=`, strip
key and value, unquote the value, and assign into `self.data`. -/
def envParseLine (data : List (String × String)) (rawline : String) :
    List (String × String) :=
  let line := pyStrip rawline pyWhitespace
  if (line == "") || pyStartsWith line "#" || !(pyContainsChar line '=') then data
  else
    let kv := pySplitOnceEq line
    let k := pyStrip kv.1 pyWhitespace
    let v := pyStrip kv.2 pyWhitespace
    let v := envUnquote v
    setKV data k v

/-- `RepositoryEnv.__init__` over the lines of the source file: fold the
per-line step into an initially empty `self.data`. -/
def repositoryEnvLines (lines : List String) : List (String × String) :=
  lines.foldl envParseLine []

/-- `RepositoryEnv` as a repository, given its parsed `data`:
`__contains__` is `key in os.environ or key in self.data`, `__getitem__` is
`self.data[key]`. -/
def repositoryEnv (data : List (String × String)) : RepoE :=
  { mem := fun env k => envContains env k || (lookupA data k).isSome
    getv := fun _ k =>
      match lookupA data k with
      | some s => .ok (.str s)
      | Option.none => .error (.keyError k) }

/-!
## `AutoConfig` discovery

Paths are modelled as lists of components of a normalised absolute POSIX path
(`_load` calls `os.path.abspath` before searching): `[]` is the filesystem
root `/`, `os.path.join path name` is `path ++ [name]`, `os.path.dirname` is
`List.dropLast`, and `os.path.basename` of a joined file path is its last
component.  The recursion guard `parent and parent != os.path.abspath(os.sep)`
becomes `parent ≠ []` (the dirname of an absolute path is always non-empty as
a string, and equals `/` exactly when it has no components).  The filesystem
is a list of the file paths that exist (`os.path.isfile`).  To make the
upward walk structurally recursive the path is passed reversed
(innermost component first): `dropLast` is then `tail`.
-/

/-- The keys of `AutoConfig.SUPPORTED`, in order: `settings.ini` is checked
before `.env`. -/
def supportedNames : List String := ["settings.ini", ".env"]

/-- Which repository class a discovered file maps to. -/
inductive RepoKind where
  | ini
  | envfile
  | empty
deriving DecidableEq

/-- `AutoConfig.SUPPORTED` as an association list from filename to
repository class. -/
def supportedMap : List (String × RepoKind) :=
  [("settings.ini", RepoKind.ini), (".env", RepoKind.envfile)]

/-- `AutoConfig._find_file`, on the reversed component list of the current
directory: check the supported filenames in order in the current directory,
else recurse into the parent unless the parent is the root. -/
def findFileAux (fs : List (List String)) : List String → Option (List String)
  | [] =>
    match supportedNames.find? (fun name => fs.contains ([name])) with
    | some name => some ([name])
    | Option.none => Option.none
  | c :: rs =>
    let path := (c :: rs).reverse
    match supportedNames.find? (fun name => fs.contains (path ++ [name])) with
    | some name => some (path ++ [name])
    | Option.none => if rs = [] then Option.none else findFileAux fs rs

/-- `AutoConfig._find_file` on a path given as its (absolute, normalised)
component list; `none` models the returned empty string. -/
def findFile (fs : List (List String)) (path : List String) :
    Option (List String) :=
  findFileAux fs path.reverse

/-- `AutoConfig._load`: discover the file, then pick
`SUPPORTED.get(os.path.basename(filename), RepositoryEmpty)`. -/
def autoLoadKind (fs : List (List String)) (path : List String) : RepoKind :=
  let filename := findFile fs path
  let base :=
    match filename with
    | Option.none => ""
    | some f => (f.getLast?).getD ""
  (lookupA supportedMap base).getD RepoKind.empty

/-!
## `Csv`: `shlex`-based tokenization

`Csv.__call__` builds `shlex(value, posix=True)`, sets `whitespace` to the
delimiter characters and `whitespace_split = True`, and leaves everything
else at shlex defaults: quotes `'` and `"`, escape `\`, `escapedquotes` `"`,
commenters `#`, empty `punctuation_chars`.  The state machine below is
`shlex.read_token` restricted to exactly that configuration, iterated to
yield all tokens.  `instream.readline()` on a comment character (discard up
to and including the next newline) is modelled by a dedicated skipping state
so that the recursion stays structural.
-/

/-- The states of `shlex.read_token`: `self.state` of `' '`, `'a'`, a quote
character, the escape character (remembering `escapedstate`: `Option.none`
for `'a'`, `some q` for quote `q`), plus the comment-skipping of
`instream.readline()`. -/
inductive ShlexState where
  | whitespace
  | word
  | quoted (q : Char)
  | escaped (fromQuote : Option Char)
  | comment
deriving DecidableEq

/-- Iterated `shlex.read_token` in posix whitespace-split mode: `ws` is the
delimiter set (`self.whitespace`), `tok`/`quotedFlag` are the current token
and its `quoted` flag, `out` the emitted tokens.  Raises
`ValueError('No closing quotation')` / `ValueError('No escaped character')`
exactly where `shlex` does. -/
def shlexRun (ws : List Char) : List Char → ShlexState → List Char → Bool →
    List String → Except PyErr (List String)
  | [], st, tok, quotedFlag, out =>
    match st with
    | .whitespace => .ok out
    | .comment => .ok out
    | .word => if tok ≠ [] || quotedFlag then .ok (out ++ [⟨tok⟩]) else .ok out
    | .quoted _ => .error .noClosingQuotation
    | .escaped _ => .error .noEscapedCharacter
  | c :: rest, st, tok, quotedFlag, out =>
    match st with
    | .whitespace =>
      if ws.contains c then
        if tok ≠ [] || quotedFlag then
          shlexRun ws rest .whitespace [] false (out ++ [⟨tok⟩])
        else shlexRun ws rest .whitespace tok quotedFlag out
      else if c = '#' then shlexRun ws rest .comment tok quotedFlag out
      else if c = '\\' then
        shlexRun ws rest (.escaped Option.none) tok quotedFlag out
      else if c = '\'' || c = '"' then
        shlexRun ws rest (.quoted c) tok quotedFlag out
      else shlexRun ws rest .word [c] quotedFlag out
    | .word =>
      if ws.contains c then
        if tok ≠ [] || quotedFlag then
          shlexRun ws rest .whitespace [] false (out ++ [⟨tok⟩])
        else shlexRun ws rest .whitespace tok quotedFlag out
      else if c = '#' then
        if tok ≠ [] || quotedFlag then
          shlexRun ws rest .comment [] false (out ++ [⟨tok⟩])
        else shlexRun ws rest .comment tok quotedFlag out
      else if c = '\'' || c = '"' then
        shlexRun ws rest (.quoted c) tok quotedFlag out
      else if c = '\\' then
        shlexRun ws rest (.escaped Option.none) tok quotedFlag out
      else shlexRun ws rest .word (tok ++ [c]) quotedFlag out
    | .quoted q =>
      if c = q then shlexRun ws rest .word tok true out
      else if q = '"' && c = '\\' then
        shlexRun ws rest (.escaped (some q)) tok true out
      else shlexRun ws rest (.quoted q) (tok ++ [c]) true out
    | .escaped fromQuote =>
      match fromQuote with
      | Option.none => shlexRun ws rest .word (tok ++ [c]) quotedFlag out
      | some q =>
        let tok := if c ≠ '\\' ∧ c ≠ q then tok ++ ['\\', c] else tok ++ [c]
        shlexRun ws rest (.quoted q) tok quotedFlag out
    | .comment =>
      if c = '\n' then shlexRun ws rest .whitespace tok quotedFlag out
      else shlexRun ws rest .comment tok quotedFlag out

/-- `Csv.__call__` with the default `cast` (`text_type`, identity on
strings) and `post_process` (`list`): split `value` with the configured
shlex, then strip each token with the configured strip set. -/
def csvCall (delimiter : List Char) (strip : List Char) (value : String) :
    Except PyErr (List String) :=
  (shlexRun delimiter value.data .whitespace [] false []).map
    (List.map (fun s => pyStrip s strip))

/-- `Csv()` with all defaults: delimiter `,`, strip `string.whitespace`. -/
def csvDefault (value : String) : Except PyErr (List String) :=
  csvCall [','] pyWhitespace value

/-!
## Claims
-/

/-- Dict lookup after dict update finds the just-written value. -/
theorem lookupA_setKV {α : Type} (l : List (String × α)) (k : String) (v : α) :
    lookupA (setKV l k v) k = some v := by
  induction l with
  | nil => simp [setKV, lookupA]
  | cons e t ih =>
    obtain ⟨k', v'⟩ := e
    by_cases h : (k' == k) = true
    · simp only [setKV]
      rw [if_pos h]
      simp [lookupA]
    · simp only [setKV]
      rw [if_neg h]
      show lookupA ((k', v') :: setKV t k v) k = some v
      rw [lookupA,
        @List.find?_cons_of_neg _ (fun e => e.1 == k) (k', v') (setKV t k v) h]
      exact ih

/-- A dict contains a key right after assigning to it. -/
theorem any_setKV {α : Type} (l : List (String × α)) (k : String) (v : α) :
    (setKV l k v).any (fun e => e.1 == k) = true := by
  induction l with
  | nil => simp [setKV]
  | cons e t ih =>
    obtain ⟨k', v'⟩ := e
    by_cases h : (k' == k) = true
    · simp only [setKV]
      rw [if_pos h]
      simp
    · simp only [setKV]
      rw [if_neg h]
      simp [ih]

/-- A dict no longer contains a key right after deleting it. -/
theorem any_delKV {α : Type} (l : List (String × α)) (k : String) :
    (delKV l k).any (fun e => e.1 == k) = false := by
  induction l with
  | nil => simp [delKV]
  | cons e t ih =>
    obtain ⟨k', v'⟩ := e
    simp only [delKV, List.filter_cons] at ih ⊢
    by_cases h : (k' == k) = true
    · simp [h, ih]
    · have hf : (k' == k) = false := by simpa using h
      simp [hf, ih]

/-- After `iniSet` into an existing section, the option is present there. -/
theorem iniHasOption_iniSet (p : IniParser) (s k v : String)
    (hs : hasSection p s = true) :
    iniHasOption (iniSet p s k v) s k = true := by
  induction p with
  | nil => simp [hasSection] at hs
  | cons e t ih =>
    obtain ⟨s', opts⟩ := e
    by_cases h : (s' == s) = true
    · simp [iniSet, h, iniHasOption, any_setKV]
    · have hs' : hasSection t s = true := by simpa [hasSection, h] using hs
      simp [iniSet, h, iniHasOption, ih hs']

/-- After `iniSet` into an existing section, reading the option there gives
the written value. -/
theorem iniGet_iniSet (p : IniParser) (s k v : String)
    (hs : hasSection p s = true) :
    iniGet (iniSet p s k v) s k = some v := by
  induction p with
  | nil => simp [hasSection] at hs
  | cons e t ih =>
    obtain ⟨s', opts⟩ := e
    by_cases h : (s' == s) = true
    · simp [iniSet, h, iniGet, lookupA_setKV]
    · have hs' : hasSection t s = true := by simpa [hasSection, h] using hs
      simp [iniSet, h, iniGet, ih hs']

/-- After `iniDelOpt`, the option is absent from the section. -/
theorem iniHasOption_iniDelOpt (p : IniParser) (s k : String) :
    iniHasOption (iniDelOpt p s k) s k = false := by
  induction p with
  | nil => simp [iniDelOpt, iniHasOption]
  | cons e t ih =>
    obtain ⟨s', opts⟩ := e
    by_cases h : (s' == s) = true
    · simp [iniDelOpt, h, iniHasOption, any_delKV]
    · simp [iniDelOpt, h, iniHasOption, ih]

/-- `WritableRepositoryIni.__init__` with `create_section` left at its
default guarantees its section exists afterwards. -/
theorem hasSection_wInit (p : IniParser) (sec : String) :
    hasSection (wInit p sec).parser sec = true := by
  show hasSection (if true && !hasSection p sec then p ++ [(sec, [])] else p) sec = true
  by_cases h : hasSection p sec = true
  · simp [h]
  · simp only [Bool.true_and]
    rw [if_pos (by simp [h])]
    simp [hasSection, List.any_append]

/-- The quote characters are stripped by `pyStrip _ quoteChars`. -/
theorem quote_mem_quoteChars {q : Char} (hq : q = '\'' ∨ q = '"') :
    quoteChars.contains q = true := by
  rcases hq with rfl | rfl <;> decide

/-- C5, counterexample: the claim predicts that the value `''x''` (first and
last character both single quotes) parses to `'x'` — one pair removed, the
enclosed text unchanged.  The code instead strips every leading and trailing
quote character and yields `x`. -/
theorem c5_unquote_counterexample :
    envParseLine [] ⟨['K', 'E', 'Y', '=', '\'', '\'', 'x', '\'', '\'']⟩
        = [("KEY", ⟨['x']⟩)] ∧
    (⟨['x']⟩ : String) ≠ ⟨['\'', 'x', '\'']⟩ := by
  decide

/-- C5, amended: for a value whose first and last characters are the same
quote character, the code removes ALL leading and trailing quote characters
of either kind (`v.strip('\'"')`); when the enclosed text neither begins nor
ends with a quote character this is exactly the removal of the one
surrounding pair, with the enclosed text returned unchanged. -/
theorem c5_amended_value_unquoting (inner : List Char) (q : Char)
    (hq : q = '\'' ∨ q = '"') :
    envUnquote ⟨q :: inner ++ [q]⟩ = pyStrip ⟨q :: inner ++ [q]⟩ quoteChars ∧
    ((∀ c ∈ inner.head?, c ∉ quoteChars) → (∀ c ∈ inner.getLast?, c ∉ quoteChars) →
      envUnquote ⟨q :: inner ++ [q]⟩ = ⟨inner⟩) := by
  have hpq : quoteChars.contains q = true := quote_mem_quoteChars hq
  have hcond : 2 ≤ (⟨q :: inner ++ [q]⟩ : String).length ∧
      (((q :: inner ++ [q]).head? = some '\'' ∧ (q :: inner ++ [q]).getLast? = some '\'') ∨
       ((q :: inner ++ [q]).head? = some '"' ∧ (q :: inner ++ [q]).getLast? = some '"')) := by
    constructor
    · simp [String.length]
    · have hlast : (q :: inner ++ [q]).getLast? = some q := by
        rw [show q :: inner ++ [q] = (q :: inner) ++ [q] from rfl]
        exact List.getLast?_concat _
      rcases hq with rfl | rfl
      · exact Or.inl ⟨List.head?_cons, hlast⟩
      · exact Or.inr ⟨List.head?_cons, hlast⟩
  have hstrip : envUnquote ⟨q :: inner ++ [q]⟩ = pyStrip ⟨q :: inner ++ [q]⟩ quoteChars := by
    rw [envUnquote, if_pos hcond]
  refine ⟨hstrip, fun h1 h2 => ?_⟩
  rw [hstrip]
  show (⟨List.rdropWhile _ (List.dropWhile _ (q :: (inner ++ [q])))⟩ : String) = _
  rw [List.dropWhile_cons, if_pos hpq]
  cases inner with
  | nil =>
    rw [List.nil_append, List.dropWhile_cons, if_pos hpq]
    rfl
  | cons h t =>
    have hmem : h ∉ quoteChars := h1 h (by rw [List.head?_cons]; rfl)
    rw [List.cons_append, List.dropWhile_cons, if_neg (by simp [hmem])]
    rw [show h :: (t ++ [q]) = (h :: t) ++ [q] from rfl]
    rw [List.rdropWhile_concat_pos _ _ _ hpq]
    have hself : List.rdropWhile (fun c => quoteChars.contains c) (h :: t) = h :: t := by
      rw [List.rdropWhile_eq_self_iff]
      intro hl
      have hlm := h2 ((h :: t).getLast hl) (by rw [List.getLast?_eq_getLast _ hl]; rfl)
      simpa using hlm
    rw [hself]

/-- Witness for C5's amended theorem, at `inner = ['x']`, `q = '\''`: the
value `'x'` is stripped to its strip-closure, and since `x` neither begins
nor ends with a quote the result is exactly `x`. -/
theorem c5_amended_value_unquoting_witness :
    envUnquote ⟨['\'', 'x', '\'']⟩ = pyStrip ⟨['\'', 'x', '\'']⟩ quoteChars ∧
    envUnquote ⟨['\'', 'x', '\'']⟩ = ⟨['x']⟩ := by
  have h := c5_amended_value_unquoting ['x'] '\'' (Or.inl rfl)
  exact ⟨h.1, h.2 (by decide) (by decide)⟩

/-- C10: a stripped line that is non-blank, not a `#` comment, and contains
no `=` is silently skipped by the `.env` parser: it binds no key (the
per-line step is the identity on `data`, and the whole-file fold is unchanged
by the line's presence), and the totality of the parsing function reflects
that the constructor raises nothing for it. -/
theorem c10_env_line_without_eq_skipped (data : List (String × String))
    (pre post : List String) (rawline : String)
    (hblank : pyStrip rawline pyWhitespace ≠ "")
    (hcomment : pyStartsWith (pyStrip rawline pyWhitespace) "#" = false)
    (heq : pyContainsChar (pyStrip rawline pyWhitespace) '=' = false) :
    envParseLine data rawline = data ∧
    repositoryEnvLines (pre ++ rawline :: post) = repositoryEnvLines (pre ++ post) := by
  have hskip : ∀ d : List (String × String), envParseLine d rawline = d := by
    intro d
    rw [envParseLine]
    have hcond : ((pyStrip rawline pyWhitespace == "") ||
        pyStartsWith (pyStrip rawline pyWhitespace) "#" ||
        !pyContainsChar (pyStrip rawline pyWhitespace) '=') = true := by
      simp [heq]
    rw [if_pos hcond]
  refine ⟨hskip data, ?_⟩
  show List.foldl envParseLine [] (pre ++ rawline :: post)
      = List.foldl envParseLine [] (pre ++ post)
  rw [List.foldl_append, List.foldl_append, List.foldl_cons, hskip]

/-- Witness for C10: the line `JUSTAWORD` between two ordinary bindings is
skipped and binds nothing. -/
theorem c10_env_line_without_eq_skipped_witness :
    envParseLine [("A", "1")] "JUSTAWORD" = [("A", "1")] ∧
    repositoryEnvLines ["A=1", "JUSTAWORD", "B=2"] = repositoryEnvLines ["A=1", "B=2"] := by
  have h := c10_env_line_without_eq_skipped [("A", "1")] ["A=1"] ["B=2"] "JUSTAWORD"
    (by decide) (by decide) (by decide)
  exact ⟨h.1, h.2⟩

/-- C1: for every option present in the process environment, `Config.get`
(and the `__call__` shorthand) returns the environment's string value,
whatever the repository contains and whatever default was supplied, and the
cast step is applied to that environment value. -/
theorem c1_environment_wins (env : PEnv) (repo : RepoE) (option : String)
    (default : Option PVal) (cast : PyCast) (v : String)
    (h : envFind env option = some v) :
    configGet env repo option default cast = applyCast cast (.str v) ∧
    configCall env repo option default cast = applyCast cast (.str v) := by
  constructor <;> simp [configGet, configCall, h]

/-- Witness for C1: environment value `env` wins over a repository that
defines the same key and over a supplied default. -/
theorem c1_environment_wins_witness :
    configGet [("KEY", "envval")] (repositoryIni [("settings", [("key", "inival")])])
      "KEY" (some (.str "dflt")) .unset = .ok (.str "envval") := by
  have h := c1_environment_wins [("KEY", "envval")]
    (repositoryIni [("settings", [("key", "inival")])]) "KEY"
    (some (.str "dflt")) .unset "envval" rfl
  simpa [applyCast] using h.1

/-- C2: for an option absent from environment and repository, `Config.get`
without a default raises `UndefinedValueError` whose message names the
option, while any supplied default — falsy ones included — is returned
through the same cast step as a found value. -/
theorem c2_default_semantics (env : PEnv) (repo : RepoE) (option : String)
    (cast : PyCast) (henv : envFind env option = Option.none)
    (hrepo : repo.mem env option = false) :
    configGet env repo option Option.none cast
        = .error (.undefinedValueError (notFoundMsg option)) ∧
    ∀ d : PVal, configGet env repo option (some d) cast = applyCast cast d := by
  constructor
  · simp [configGet, henv, hrepo]
  · intro d
    simp [configGet, henv, hrepo]

/-- Witness for C2: with nothing defined, omission of the default errors
with the option's name in the message, while the falsy defaults `None`,
`False` and `""` are returned as-is. -/
theorem c2_default_semantics_witness :
    configGet [] repositoryEmpty "MISSING" Option.none .unset
        = .error (.undefinedValueError (notFoundMsg "MISSING")) ∧
    configGet [] repositoryEmpty "MISSING" (some PVal.none) .unset = .ok PVal.none ∧
    configGet [] repositoryEmpty "MISSING" (some (.bool false)) .unset
        = .ok (.bool false) ∧
    configGet [] repositoryEmpty "MISSING" (some (.str "")) .unset = .ok (.str "") := by
  have h := c2_default_semantics [] repositoryEmpty "MISSING" .unset rfl rfl
  exact ⟨h.1, by simpa [applyCast] using h.2 PVal.none,
    by simpa [applyCast] using h.2 (.bool false),
    by simpa [applyCast] using h.2 (.str "")⟩

/-- C3: `WritableConfig.get` never consults the process environment — its
result is identical under any two ambient environments, for every option,
default and cast, depending only on the writable repository state. -/
theorem c3_writable_get_noninterference (env₁ env₂ : PEnv) (r : WRepoIni)
    (option : String) (default : Option PVal) (cast : PyCast) :
    writableGet env₁ r option default cast = writableGet env₂ r option default cast :=
  rfl

/-- C4: the boolean cast (cast argument exactly `bool`) stringifies the
resolved value first; the empty string casts to false; case-insensitive
`y/yes/t/true/on/1` cast to true and `n/no/f/false/off/0` to false; any
other nonempty string raises the `strtobool` `ValueError`, and the cast
error propagates out of `Config.get`. -/
theorem c4_boolean_cast :
    (∀ v : PVal, pyStr v = "" → applyCast .boolMarker v = .ok (.bool false)) ∧
    (∀ v : PVal, pyLower (pyStr v) ∈ trueTokens →
      applyCast .boolMarker v = .ok (.bool true)) ∧
    (∀ v : PVal, pyLower (pyStr v) ∈ falseTokens →
      applyCast .boolMarker v = .ok (.bool false)) ∧
    (∀ v : PVal, pyStr v ≠ "" → pyLower (pyStr v) ∉ trueTokens →
      pyLower (pyStr v) ∉ falseTokens →
      applyCast .boolMarker v = .error (.invalidTruthValue (pyLower (pyStr v)))) ∧
    (∀ (env : PEnv) (repo : RepoE) (option : String) (default : Option PVal)
      (s : String), envFind env option = some s →
      configGet env repo option default .boolMarker
          = (castBoolean (.str s)).map PVal.bool) := by
  refine ⟨?_, ?_, ?_, ?_, ?_⟩
  · intro v h
    simp only [applyCast, castBoolean]
    rw [if_pos h]
    rfl
  · intro v h
    by_cases hs : pyStr v = ""
    · rw [hs] at h
      exact absurd h (by decide)
    · simp only [applyCast, castBoolean, strtobool]
      rw [if_neg hs, if_pos h]
      rfl
  · intro v h
    by_cases hs : pyStr v = ""
    · rw [hs] at h
      exact absurd h (by decide)
    · have hdisj : ∀ x ∈ falseTokens, x ∉ trueTokens := by decide
      simp only [applyCast, castBoolean, strtobool]
      rw [if_neg hs, if_neg (hdisj _ h), if_pos h]
      rfl
  · intro v hs ht hf
    simp only [applyCast, castBoolean, strtobool]
    rw [if_neg hs, if_neg ht, if_neg hf]
    rfl
  · intro env repo option default s h
    simp [configGet, h, applyCast]

/-- Witness for C4: empty string, case-insensitive true/false tokens (one of
them reached from an actual boolean through `str`), an unrecognized token,
and propagation through `Config.get`. -/
theorem c4_boolean_cast_witness :
    applyCast .boolMarker (.str "") = .ok (.bool false) ∧
    applyCast .boolMarker (.str "YES") = .ok (.bool true) ∧
    applyCast .boolMarker (.bool false) = .ok (.bool false) ∧
    applyCast .boolMarker (.str "maybe") = .error (.invalidTruthValue "maybe") ∧
    configGet [("FLAG", "on")] repositoryEmpty "FLAG" Option.none .boolMarker
        = .ok (.bool true) := by
  refine ⟨c4_boolean_cast.1 (.str "") rfl,
    c4_boolean_cast.2.1 (.str "YES") (by decide),
    c4_boolean_cast.2.2.1 (.bool false) (by decide), ?_, ?_⟩
  · have h := c4_boolean_cast.2.2.2.1 (.str "maybe") (by decide) (by decide) (by decide)
    exact h.trans (by decide)
  · have h := c4_boolean_cast.2.2.2.2 [("FLAG", "on")] repositoryEmpty "FLAG"
      Option.none "on" rfl
    rw [h]
    decide

/-- C6, counterexample: building the writable ini repository the way
`WritableConfig` does from constructor arguments, without supplying a
section, selects the section `default` — not `settings` as claimed. -/
theorem c6_default_section_counterexample :
    (writableConfigInitRepo []).SECTION = "default" ∧
    (writableConfigInitRepo []).SECTION ≠ "settings" := by
  decide

/-- C6, amended: the read-only `RepositoryIni` has the fixed section
`settings` and looks keys up there; the writable variant (including the one
`WritableConfig` builds from constructor arguments) defaults its section to
`default`, and looks up and writes keys in that section (every write that
`ConfigParser.set` accepts lands in section `default`). -/
theorem c6_amended_sections :
    repositoryIniSection = "settings" ∧
    (∀ (p : IniParser) (env : PEnv) (k : String),
      (repositoryIni p).mem env k
          = (envContains env k || parserHasOption p "settings" k)) ∧
    (∀ p : IniParser, (wInit p).SECTION = "default" ∧
      (writableConfigInitRepo p).SECTION = "default") ∧
    (∀ (p : IniParser) (k : String) (v : PVal) (r' : WRepoIni),
      wSetItem (wInit p) k v = .ok r' →
      wContains r' k = true ∧ parserHasOption r'.parser "default" k = true) := by
  refine ⟨rfl, fun p env k => rfl, fun p => ⟨rfl, rfl⟩, fun p k v r' hset => ?_⟩
  simp only [wSetItem, parserSet] at hset
  cases hb : (if pyStr v ≠ "" then beforeSet (pyStr v) else .ok (pyStr v)) with
  | error e =>
    rw [hb] at hset
    exact absurd hset (by simp)
  | ok v' =>
    rw [hb] at hset
    simp only [Except.ok.injEq] at hset
    subst hset
    have h : iniHasOption (iniSet (wInit p).parser "default" (pyLower k) v')
        "default" (pyLower k) = true :=
      iniHasOption_iniSet _ _ _ _ (hasSection_wInit p "default")
    exact ⟨h, h⟩

/-- Witness for C6's amended theorem: a successful write through the
writable repository constructed without a section lands in (and is found
in) section `default`. -/
theorem c6_amended_sections_witness :
    wContains ⟨"default", [("default", [("key", "val")])]⟩ "key" = true ∧
    parserHasOption ([("default", [("key", "val")])] : IniParser)
        "default" "key" = true :=
  c6_amended_sections.2.2.2 [] "key" (.str "val")
    ⟨"default", [("default", [("key", "val")])]⟩ (by decide)

/-- `%%`-replacement is the identity on `%`-free character lists. -/
theorem replaceDoublePct_of_no_pct (l : List Char)
    (h : l.contains '%' = false) : replaceDoublePct l = l := by
  induction l with
  | nil => rfl
  | cons c t ih =>
    rw [List.contains_cons, Bool.or_eq_false_iff] at h
    obtain ⟨hc, ht⟩ := h
    have hc' : ¬ c = '%' := by
      intro hcc
      subst hcc
      simp at hc
    show replaceDoublePctAux false (c :: t) = c :: t
    simp only [replaceDoublePctAux]
    rw [if_neg hc']
    exact congrArg (List.cons c) (ih ht)

/-- `_KEYCRE` substitution is the identity on `%`-free character lists. -/
theorem keycreSubFuel_of_no_pct (fuel : Nat) (l : List Char)
    (h : l.contains '%' = false) : keycreSubFuel fuel l = l := by
  induction fuel generalizing l with
  | zero => rfl
  | succ f ih =>
    cases l with
    | nil => rfl
    | cons c t =>
      rw [List.contains_cons, Bool.or_eq_false_iff] at h
      obtain ⟨hc, ht⟩ := h
      have hc' : ¬ c = '%' := by
        intro hcc
        subst hcc
        simp at hc
      simp only [keycreSubFuel]
      rw [if_neg hc', ih t ht]

/-- `before_set` accepts a `%`-free value unchanged. -/
theorem beforeSet_of_no_pct (s : String) (h : s.data.contains '%' = false) :
    beforeSet s = .ok s := by
  simp only [beforeSet, keycreSub, replaceDoublePct_of_no_pct _ h,
    keycreSubFuel_of_no_pct _ _ h]
  rw [if_neg (fun hx => Bool.false_ne_true (h ▸ hx))]

/-- The interpolation scan copies `%`-free text verbatim. -/
theorem interpScan_of_no_pct (opts : List (String × String))
    (recurse : List Char → Except PyErr (List Char)) (accum l : List Char)
    (h : l.contains '%' = false) :
    interpScan opts recurse .scan accum l = .ok (accum ++ l) := by
  induction l generalizing accum with
  | nil => simp [interpScan]
  | cons c t ih =>
    rw [List.contains_cons, Bool.or_eq_false_iff] at h
    obtain ⟨hc, ht⟩ := h
    have hc' : ¬ c = '%' := by
      intro hcc
      subst hcc
      simp at hc
    simp only [interpScan]
    rw [if_neg hc', ih (accum ++ [c]) ht]
    simp

/-- `before_get` returns a `%`-free value unchanged. -/
theorem beforeGet_of_no_pct (opts : List (String × String)) (s : String)
    (h : s.data.contains '%' = false) : beforeGet opts s = .ok s := by
  obtain ⟨l⟩ := s
  show (match interpScan opts (fun v => interpolateSome opts 9 v) .scan [] l with
    | .ok l' => Except.ok (⟨l'⟩ : String)
    | .error e => .error e) = .ok ⟨l⟩
  rw [interpScan_of_no_pct opts _ [] l h]
  rfl

/-- `ConfigParser.set` stores a `%`-free value verbatim (the empty string
skips `before_set` entirely). -/
theorem parserSet_of_no_pct (p : IniParser) (s k v : String)
    (h : v.data.contains '%' = false) :
    parserSet p s k v = .ok (iniSet p s (pyLower k) v) := by
  by_cases hv : v = ""
  · subst hv
    rfl
  · simp only [parserSet]
    rw [if_pos hv, beforeSet_of_no_pct v h]

/-- C8, counterexample: the claim's for-every-value round-trip fails on
values with interpolation syntax.  `ConfigParser.set` rejects `50%` outright
(`before_set` raises `ValueError`), and `a%%b` is stored but read back as
`a%b` (`before_get` collapses `%%`), not as the just-set string. -/
theorem c8_roundtrip_counterexample :
    wSetItem (wInit []) "k" (.str "50%")
        = .error (.invalidInterpolationSyntax "50%") ∧
    (wSetItem (wInit []) "k" (.str "a%%b")).bind
        (fun r₁ => writableGet [] r₁ "k" Option.none .unset)
        = .ok (.str "a%b") ∧
    ("a%b" : String) ≠ "a%%b" := by
  decide

/-- C8, amended: over a repository whose section exists (which construction
guarantees), for every key and every value whose string coercion is free of
the interpolation character `%`, setting the key succeeds and getting it
back — with no environment involvement — returns the string-coerced just-set
value; after deleting the key, a `get` without default raises
`UndefinedValueError`. -/
theorem c8_writable_roundtrip (env env' : PEnv) (r : WRepoIni) (k : String)
    (v : PVal) (cast : PyCast) (hs : hasSection r.parser r.SECTION = true)
    (hp : (pyStr v).data.contains '%' = false) :
    ∃ r₁ : WRepoIni, wSetItem r k v = .ok r₁ ∧
      writableGet env r₁ k Option.none .unset = .ok (.str (pyStr v)) ∧
      writableGet env' (wDelItem r₁ k) k Option.none cast
          = .error (.undefinedValueError (notFoundMsg k)) := by
  refine ⟨⟨r.SECTION, iniSet r.parser r.SECTION (pyLower k) (pyStr v)⟩, ?_, ?_, ?_⟩
  · simp only [wSetItem, parserSet_of_no_pct _ _ _ _ hp]
  · have hc : wContains ⟨r.SECTION,
        iniSet r.parser r.SECTION (pyLower k) (pyStr v)⟩ k = true := by
      show iniHasOption (iniSet r.parser r.SECTION (pyLower k) (pyStr v))
          r.SECTION (pyLower k) = true
      exact iniHasOption_iniSet _ _ _ _ hs
    have hg : parserGetOpt (iniSet r.parser r.SECTION (pyLower k) (pyStr v))
        r.SECTION k = .ok (pyStr v) := by
      simp only [parserGetOpt, iniGet_iniSet _ _ _ _ hs]
      exact beforeGet_of_no_pct _ _ hp
    simp [writableGet, hc, hg, applyCast]
  · have hc : wContains (wDelItem ⟨r.SECTION,
        iniSet r.parser r.SECTION (pyLower k) (pyStr v)⟩ k) k = false := by
      show iniHasOption (iniDelOpt (iniSet r.parser r.SECTION (pyLower k) (pyStr v))
          r.SECTION (pyLower k)) r.SECTION (pyLower k) = false
      exact iniHasOption_iniDelOpt _ _ _
    simp [writableGet, hc]

/-- Witness for C8's amended theorem: set `Key` to the integer `5` in a
freshly constructed writable repository, read back the string `5`, delete,
and observe the error. -/
theorem c8_writable_roundtrip_witness :
    (wSetItem (wInit []) "Key" (.int 5)).bind
        (fun r₁ => writableGet [] r₁ "Key" Option.none .unset)
        = .ok (.str "5") ∧
    (wSetItem (wInit []) "Key" (.int 5)).bind
        (fun r₁ => writableGet [] (wDelItem r₁ "Key") "Key" Option.none .unset)
        = .error (.undefinedValueError (notFoundMsg "Key")) := by
  obtain ⟨r₁, h1, h2, h3⟩ := c8_writable_roundtrip [] [] (wInit []) "Key"
    (.int 5) .unset (hasSection_wInit [] "default") (by decide)
  rw [h1]
  exact ⟨h2, h3⟩

/-- If `settings.ini` exists in the current directory the walk returns it at
once (it is checked before `.env`). -/
theorem findFileAux_first (fs : List (List String)) (rpath : List String)
    (h : fs.contains (rpath.reverse ++ ["settings.ini"]) = true) :
    findFileAux fs rpath = some (rpath.reverse ++ ["settings.ini"]) := by
  cases rpath with
  | nil =>
    have h' : fs.contains (["settings.ini"] : List String) = true := h
    simp only [findFileAux, supportedNames]
    rw [@List.find?_cons_of_pos _ (fun name => fs.contains [name])
      "settings.ini" [".env"] h']
    rfl
  | cons x rs =>
    simp only [findFileAux, supportedNames]
    rw [@List.find?_cons_of_pos _
      (fun name => fs.contains ((x :: rs).reverse ++ [name]))
      "settings.ini" [".env"] h]

/-- The upward walk finds some file whenever one of the supported names
exists in a non-root suffix (ancestor-or-self) of the reversed start path. -/
theorem findFileAux_isSome_of_ancestor (fs : List (List String)) :
    ∀ rpath ranc : List String, ranc ≠ [] → ranc <:+ rpath →
      (fs.contains (ranc.reverse ++ ["settings.ini"]) = true ∨
       fs.contains (ranc.reverse ++ [".env"]) = true) →
      (findFileAux fs rpath).isSome = true := by
  intro rpath
  induction rpath with
  | nil =>
    intro ranc hne hsuf _
    rw [List.suffix_nil] at hsuf
    exact absurd hsuf hne
  | cons x rs ih =>
    intro ranc hne hsuf hfile
    simp only [findFileAux]
    cases hfind : supportedNames.find?
        (fun name => fs.contains ((x :: rs).reverse ++ [name])) with
    | some name => simp
    | none =>
      rcases List.suffix_cons_iff.mp hsuf with heq | hsuf'
      · exfalso
        subst heq
        have hex : ∃ n ∈ supportedNames,
            (fun name => fs.contains ((x :: rs).reverse ++ [name])) n = true := by
          rcases hfile with h | h
          · exact ⟨"settings.ini", by decide, h⟩
          · exact ⟨".env", by decide, h⟩
        have hsome := List.find?_isSome.mpr hex
        rw [hfind] at hsome
        simp at hsome
      · have hrs : rs ≠ [] := by
          intro h0
          subst h0
          rw [List.suffix_nil] at hsuf'
          exact hne hsuf'
        rw [if_neg hrs]
        exact ih ranc hne hsuf' hfile

/-- C7, counterexample: the claim says a file in any ancestor directory is
found from any descendant start path.  With `settings.ini` in the filesystem
root `/` (an ancestor of `/a`) and the walk started at `/a`, nothing is
found — the recursion stops before examining the root — and `AutoConfig`
falls back to the empty repository. -/
theorem c7_root_ancestor_counterexample :
    ([] : List String) <+: ["a"] ∧
    [[("settings.ini" : String)]].contains (([] : List String) ++ ["settings.ini"]) = true ∧
    findFile [["settings.ini"]] ["a"] = Option.none ∧
    autoLoadKind [["settings.ini"]] ["a"] = RepoKind.empty := by
  refine ⟨⟨["a"], rfl⟩, by decide, by decide, by decide⟩

/-- C7, amended: discovery checks `settings.ini` before `.env` in each
directory and walks upward; a file planted in an ancestor-or-self directory
OTHER THAN the filesystem root is found from any descendant start (files in
the root itself are only found when the start path is the root); when
nothing is found, `_load` falls back to `RepositoryEmpty`, so any
`Config.get` without a default (for an option also absent from the
environment) raises `UndefinedValueError`. -/
theorem c7_amended_discovery :
    (∀ (fs : List (List String)) (path : List String),
      fs.contains (path ++ ["settings.ini"]) = true →
      findFile fs path = some (path ++ ["settings.ini"])) ∧
    (∀ (fs : List (List String)) (path anc : List String),
      anc ≠ [] → anc <+: path →
      (fs.contains (anc ++ ["settings.ini"]) = true ∨
       fs.contains (anc ++ [".env"]) = true) →
      (findFile fs path).isSome = true) ∧
    (∀ (fs : List (List String)) (path : List String),
      findFile fs path = Option.none → autoLoadKind fs path = RepoKind.empty) ∧
    (∀ (env : PEnv) (option : String) (cast : PyCast),
      envFind env option = Option.none →
      configGet env repositoryEmpty option Option.none cast
          = .error (.undefinedValueError (notFoundMsg option))) := by
  refine ⟨?_, ?_, ?_, ?_⟩
  · intro fs path h
    rw [findFile, findFileAux_first fs path.reverse (by rwa [List.reverse_reverse]),
      List.reverse_reverse]
  · intro fs path anc hne hpre hfile
    rw [findFile]
    refine findFileAux_isSome_of_ancestor fs path.reverse anc.reverse
      (by simpa using hne) (List.reverse_suffix.mpr hpre) ?_
    rwa [List.reverse_reverse]
  · intro fs path h
    simp [autoLoadKind, h, lookupA, supportedMap]
  · intro env option cast h
    simp [configGet, h, repositoryEmpty]

/-- Witness for C7's amended theorem: a file two levels up is found, the
ini name wins in its own directory, and the empty fallback makes `get`
fail. -/
theorem c7_amended_discovery_witness :
    findFile [["a", "b", "settings.ini"]] ["a", "b"]
        = some ["a", "b", "settings.ini"] ∧
    (findFile [["a", "settings.ini"]] ["a", "b", "c"]).isSome = true ∧
    autoLoadKind [] ["a", "b"] = RepoKind.empty ∧
    configGet [] repositoryEmpty "X" Option.none .unset
        = .error (.undefinedValueError (notFoundMsg "X")) := by
  refine ⟨c7_amended_discovery.1 _ _ (by decide),
    c7_amended_discovery.2.1 [["a", "settings.ini"]] ["a", "b", "c"] ["a"]
      (by decide) ⟨["b", "c"], rfl⟩ (Or.inl (by decide)),
    c7_amended_discovery.2.2.1 [] ["a", "b"] (by decide),
    c7_amended_discovery.2.2.2 [] "X" .unset rfl⟩

/-- C9: the CSV transformer with default settings tokenizes with shell-like
quoting — a quoted substring containing the delimiter stays one token — then
trims each token: the spec's own example input maps to `["a", "b", "c,d"]`. -/
theorem c9_csv_default_example :
    csvDefault ⟨['a', ',', ' ', 'b', ',', ' ', '\'', 'c', ',', 'd', '\'']⟩
        = .ok ["a", "b", "c,d"] := by
  decide
